import Mathlib

/-!
Verification of the schedule data model in `src/events/models.py` of the
pycontw2016 repository.  Pure fragments of the module (the location width
table, the `Time.__lt__` comparison, the fixed day constants, keynote URL
construction, the declarative ordering of `Schedule` rows, the eager-join
contract of `ProposedTalkEventManager`, and the `limit_choices_to`
validation rule on `ProposedTalkEvent.proposal`) are embedded as Lean
definitions and the spec sentences about them are settled as theorems.
-/

namespace Events

/-! ## Day constants (models.py lines 17-24) -/

/-- A calendar date, compared lexicographically on (year, month, day) as
Python `datetime.date` values are. -/
structure Date where
  year : Nat
  month : Nat
  day : Nat
deriving DecidableEq, Repr

/-- Lexicographic strict order on dates, matching `datetime.date` ordering. -/
def Date.lt (a b : Date) : Bool :=
  a.year < b.year ||
    (a.year == b.year && (a.month < b.month ||
      (a.month == b.month && a.day < b.day)))

def DAY_1 : Date := ⟨2016, 6, 3⟩
def DAY_2 : Date := ⟨2016, 6, 4⟩
def DAY_3 : Date := ⟨2016, 6, 5⟩

/-- The ordered day-name mapping.  Python builds an `OrderedDict` from an
explicit association list, so iteration order is exactly the list order. -/
def DAY_NAMES : List (Date × String) :=
  [(DAY_1, "Day 1"), (DAY_2, "Day 2"), (DAY_3, "Day 3")]

/-! ## Time (models.py lines 27-58) -/

/-- A `Time` row.  The `value` column is a datetime primary key; a record
whose `value` does not hold a concrete datetime (e.g. an unsaved placeholder)
is modelled with `none`.  Concrete datetimes are modelled as integers, which
share the total order of timestamps. -/
structure Time where
  value : Option Int
deriving DecidableEq, Repr

/-- Result of a Python rich-comparison method: either a boolean, or the
`NotImplemented` sentinel. -/
inductive CmpResult where
  | result (b : Bool)
  | notImplemented
deriving DecidableEq, Repr

/-- Embedding of `Time.__lt__`: if either operand's `value` is not a concrete
datetime the method returns `NotImplemented`; otherwise it compares the
underlying values. -/
def Time.lt (a b : Time) : CmpResult :=
  match a.value, b.value with
  | some x, some y => .result (decide (x < y))
  | _, _ => .notImplemented

/-! ## Location (models.py lines 61-89) -/

namespace Location

def R3 : String := "1-r3"
def ALL : String := "2-all"
def R012 : String := "3-r012"
def R0 : String := "4-r0"
def R1 : String := "5-r1"
def R2 : String := "6-r2"

/-- The six valid location codes. -/
def codes : List String := [R3, ALL, R012, R0, R1, R2]

/-- Embedding of `Location.get_md_width`: a lookup in the literal dict of
the source; `none` models the `KeyError` raised on a key outside the dict. -/
def get_md_width (value : String) : Option Nat :=
  if value = "2-all" then some 4
  else if value = "3-r012" then some 3
  else if value = "4-r0" then some 1
  else if value = "5-r1" then some 1
  else if value = "6-r2" then some 1
  else if value = "1-r3" then some 1
  else none

end Location

/-! ## BaseEvent location choices (models.py lines 95-110) -/

/-- Embedding of `BaseEvent.LOCATION_CHOICES`: the (code, label) pairs in
their declared order. -/
def LOCATION_CHOICES : List (String × String) :=
  [(Location.ALL, "All rooms"),
   (Location.R012, "R0, R1, R2"),
   (Location.R0, "R0"),
   (Location.R1, "R1"),
   (Location.R2, "R2"),
   (Location.R3, "R3")]

/-- Declared `max_length` of the `location` column. -/
def locationMaxLength : Nat := 6

/-! ## String sorting of location codes -/

/-- Lexicographic comparison of character lists by code point, as Python
compares strings. -/
def charsLt : List Char → List Char → Bool
  | [], [] => false
  | [], _ :: _ => true
  | _ :: _, [] => false
  | c :: cs, d :: ds =>
    if c.toNat < d.toNat then true
    else if d.toNat < c.toNat then false
    else charsLt cs ds

/-- Strict lexicographic order on strings by code point (Python string
comparison). -/
def strLt (s t : String) : Bool :=
  charsLt s.toList t.toList

/-- Insert a string into an already sorted list of strings. -/
def insertStr (s : String) : List String → List String
  | [] => [s]
  | t :: ts => if strLt s t then s :: t :: ts else t :: insertStr s ts

/-- Insertion sort on strings by the lexicographic order, used to state the
layout-priority ordering that the numbering prefixes realise. -/
def sortStrings : List String → List String
  | [] => []
  | s :: ts => insertStr s (sortStrings ts)

/-! ## KeynoteEvent URL (models.py lines 147-176) -/

/-- A keynote event row: the fields `get_absolute_url` reads. -/
structure KeynoteEvent where
  speaker_name : String
  slug : String
deriving DecidableEq, Repr

/-- Modelled from the spec: the URL of the generic static-page route
(`page`) for a given path.  The route table lives outside `src/`; the spec
describes it as a fixed static-page URL parameterised by the path. -/
def reversePage (path : String) : String :=
  "/" ++ path ++ "/"

/-- Embedding of the `urlsplit` / `_replace(fragment=...)` / `urlunsplit`
pipeline on a fragment-free URL: the fragment is appended after `#` when
non-empty, and the URL is unchanged when the fragment is empty. -/
def withFragment (url frag : String) : String :=
  if frag = "" then url else url ++ "#" ++ frag

/-- Embedding of `KeynoteEvent.get_absolute_url`. -/
def KeynoteEvent.get_absolute_url (e : KeynoteEvent) : String :=
  withFragment (reversePage "events/keynotes")
    ("keynote-speaker-" ++ e.slug)

/-- Test that string `t` is a suffix of string `s`, by comparing the
trailing characters (the meaning of Python str.endswith). -/
def strEndsWith (s t : String) : Bool :=
  decide (t.toList.length ≤ s.toList.length) &&
    decide (s.toList.drop (s.toList.length - t.toList.length) = t.toList)

/-! ## TalkProposal and ProposedTalkEvent (models.py lines 200-225) -/

/-- The fields of a `TalkProposal` that this module reads. -/
structure TalkProposal where
  pk : Nat
  title : String
  accepted : Bool
deriving DecidableEq, Repr

/-- Embedding of `limit_choices_to = \x7b accepted : True \x7d` on
`ProposedTalkEvent.proposal`: the predicate the validation layer checks on a
candidate proposal before it may be assigned. -/
def proposalChoiceLimit (p : TalkProposal) : Bool :=
  p.accepted

/-- Validation-layer acceptance of a proposal as the target of a
`ProposedTalkEvent`: the framework admits exactly the rows satisfying the
declared choice limit. -/
def validProposedTalkEventProposal (p : TalkProposal) : Bool :=
  proposalChoiceLimit p

/-- A queryset in the fragment of the ORM this module uses: a list of
relation names that the single base query eagerly joins.  Accessing a
relation that is not in the list issues one extra query for that row. -/
structure QuerySet where
  eagerRelations : List String
deriving DecidableEq, Repr

/-- The base `Manager.get_queryset`: no eager relations. -/
def baseGetQueryset : QuerySet :=
  ⟨[]⟩

/-- Embedding of `ProposedTalkEventManager.get_queryset`: the base queryset
with `select_related` applied to the `proposal` relation. -/
def proposedTalkEventGetQueryset : QuerySet :=
  ⟨"proposal" :: baseGetQueryset.eagerRelations⟩

/-- Number of extra queries issued when one row's named relation is read:
zero when the relation was eagerly joined, one otherwise. -/
def relationAccessQueries (qs : QuerySet) (rel : String) : Nat :=
  if rel ∈ qs.eagerRelations then 0 else 1

/-- Total queries to fetch `n` rows through a queryset and read the named
relation on each row: one base query plus the per-row accesses. -/
def queriesToReadRelation (qs : QuerySet) (rel : String) (n : Nat) : Nat :=
  1 + n * relationAccessQueries qs rel

/-! ## Schedule (models.py lines 228-242) -/

/-- A `Schedule` row; `created_at` is modelled as an integer timestamp. -/
structure Schedule where
  html : String
  created_at : Int
deriving DecidableEq, Repr

/-- The comparison behind `ordering = [-created_at]`: row `a` may precede
row `b` when its `created_at` is at least that of `b`. -/
def scheduleBefore (a b : Schedule) : Prop :=
  b.created_at ≤ a.created_at

instance : DecidableRel scheduleBefore :=
  fun a b => inferInstanceAs (Decidable (b.created_at ≤ a.created_at))

/-- Insert a row into a list already sorted by descending `created_at`. -/
def insertDesc (s : Schedule) : List Schedule → List Schedule
  | [] => [s]
  | t :: ts =>
    if s.created_at ≥ t.created_at then s :: t :: ts else t :: insertDesc s ts

/-- Embedding of the default retrieval order declared by
`ordering = [-created_at]`: the rows sorted by descending `created_at`. -/
def scheduleDefaultOrder : List Schedule → List Schedule
  | [] => []
  | s :: ts => insertDesc s (scheduleDefaultOrder ts)

/-- Embedding of `latest()` under `get_latest_by = created_at`: the row with
the maximal `created_at`, or `none` on an empty table (the `DoesNotExist`
error). -/
def scheduleLatest : List Schedule → Option Schedule
  | [] => none
  | s :: ts =>
    match scheduleLatest ts with
    | none => some s
    | some t => if s.created_at < t.created_at then some t else some s

/-! ## Theorems -/

/-- C1: on every one of the six valid location codes `get_md_width` returns
a value in \x7b 1, 3, 4 \x7d and does not raise; on every string outside the
six it raises `KeyError` (modelled as `none`) with no fallback. -/
theorem location_width_total_on_codes :
    ∀ s : String,
      (s ∈ Location.codes →
        ∃ w, Location.get_md_width s = some w ∧ (w = 1 ∨ w = 3 ∨ w = 4)) ∧
      (s ∉ Location.codes → Location.get_md_width s = none) := by
  intro s
  constructor
  · intro h
    fin_cases h
    · exact ⟨1, rfl, Or.inl rfl⟩
    · exact ⟨4, rfl, Or.inr (Or.inr rfl)⟩
    · exact ⟨3, rfl, Or.inr (Or.inl rfl)⟩
    · exact ⟨1, rfl, Or.inl rfl⟩
    · exact ⟨1, rfl, Or.inl rfl⟩
    · exact ⟨1, rfl, Or.inl rfl⟩
  · intro h
    simp only [Location.codes, Location.R3, Location.ALL, Location.R012,
      Location.R0, Location.R1, Location.R2, List.mem_cons,
      List.not_mem_nil, or_false, not_or] at h
    obtain ⟨h1, h2, h3, h4, h5, h6⟩ := h
    simp [Location.get_md_width, h1, h2, h3, h4, h5, h6]

theorem location_width_total_on_codes_witness :
    (∃ w, Location.get_md_width "1-r3" = some w ∧ (w = 1 ∨ w = 3 ∨ w = 4)) ∧
    Location.get_md_width "r3" = none :=
  ⟨(location_width_total_on_codes "1-r3").1 (by decide),
   (location_width_total_on_codes "r3").2 (by decide)⟩

/-- C7: DAY_1 (2016-06-03), DAY_2 (2016-06-04) and DAY_3 (2016-06-05) are
strictly increasing as dates, and iterating the day-name mapping yields
exactly those three keys in that order, labelled Day 1, Day 2, Day 3. -/
theorem day_constants_ordered :
    Date.lt DAY_1 DAY_2 = true ∧ Date.lt DAY_2 DAY_3 = true ∧
    DAY_NAMES.map Prod.fst = [DAY_1, DAY_2, DAY_3] ∧
    DAY_NAMES.map Prod.snd = ["Day 1", "Day 2", "Day 3"] := by
  refine ⟨rfl, rfl, rfl, rfl⟩

/-- C8: sorting the six location codes as strings yields exactly R3, ALL,
R012, R0, R1, R2: the numbering prefixes realise the documented layout
priority (whole-venue first, then belt and partial belt, then the single
rooms in order). -/
theorem location_codes_sort_order :
    sortStrings (LOCATION_CHOICES.map Prod.fst) =
      [Location.R3, Location.ALL, Location.R012,
       Location.R0, Location.R1, Location.R2] ∧
    strLt Location.R3 Location.ALL = true ∧
    strLt Location.ALL Location.R012 = true ∧
    strLt Location.R012 Location.R0 = true ∧
    strLt Location.R0 Location.R1 = true ∧
    strLt Location.R1 Location.R2 = true := by
  refine ⟨rfl, rfl, rfl, rfl, rfl, rfl⟩

/-- C10: every code offered in `BaseEvent.LOCATION_CHOICES` is in the
domain of `Location.get_md_width` (the KeyError branch is unreachable for a
validly stored location), and every code has length at most the declared
`max_length` of 6. -/
theorem location_choices_covered :
    ∀ c ∈ LOCATION_CHOICES,
      (Location.get_md_width c.1).isSome = true ∧
      c.1.length ≤ locationMaxLength := by
  decide

theorem location_choices_covered_witness :
    (Location.ALL, "All rooms") ∈ LOCATION_CHOICES ∧
    (Location.get_md_width (Location.ALL, "All rooms").1).isSome = true ∧
    (Location.ALL, "All rooms").1.length ≤ locationMaxLength :=
  ⟨by decide, location_choices_covered (Location.ALL, "All rooms") (by decide)⟩

/-- C2: on Time records with concrete datetime values, the comparison
derived from the embedded `Time.lt` orders records exactly as their
underlying timestamps: lt holds iff the values are so ordered, and the
order is antisymmetric and transitive. -/
theorem time_lt_total_order :
    ∀ a b c : Time, ∀ x y z : Int,
      a.value = some x → b.value = some y → c.value = some z →
      ((Time.lt a b = .result true ↔ x < y) ∧
       (Time.lt a b = .result true → Time.lt b a = .result false) ∧
       (Time.lt a b = .result true → Time.lt b c = .result true →
         Time.lt a c = .result true)) := by
  intro a b c x y z ha hb hc
  simp only [Time.lt, ha, hb, hc]
  refine ⟨by simp, ?_, ?_⟩
  · intro h
    simp only [CmpResult.result.injEq, decide_eq_true_eq] at h
    simp only [CmpResult.result.injEq, decide_eq_false_iff_not]
    omega
  · intro h h2
    simp only [CmpResult.result.injEq, decide_eq_true_eq] at h h2 ⊢
    omega

theorem time_lt_total_order_witness :
    ((Time.lt ⟨some 1⟩ ⟨some 2⟩ = .result true ↔ (1:Int) < 2) ∧
     (Time.lt ⟨some 1⟩ ⟨some 2⟩ = .result true →
       Time.lt ⟨some 2⟩ ⟨some 1⟩ = .result false) ∧
     (Time.lt ⟨some 1⟩ ⟨some 2⟩ = .result true →
       Time.lt ⟨some 2⟩ ⟨some 3⟩ = .result true →
       Time.lt ⟨some 1⟩ ⟨some 3⟩ = .result true)) :=
  time_lt_total_order ⟨some 1⟩ ⟨some 2⟩ ⟨some 3⟩ 1 2 3 rfl rfl rfl

/-- C3: when at least one operand's value is not a concrete datetime, the
comparison yields the explicit `NotImplemented` signal, never a boolean and
never a crash. -/
theorem time_lt_incomparable :
    ∀ a b : Time, (a.value = none ∨ b.value = none) →
      Time.lt a b = CmpResult.notImplemented := by
  intro a b h
  rcases h with h | h
  · simp [Time.lt, h]
  · cases hv : a.value <;> simp [Time.lt, h, hv]

theorem time_lt_incomparable_witness :
    Time.lt ⟨none⟩ ⟨some 0⟩ = CmpResult.notImplemented :=
  time_lt_incomparable ⟨none⟩ ⟨some 0⟩ (Or.inl rfl)

/-- C4: the validation layer accepts a proposal as the target of a
`ProposedTalkEvent` exactly when its accepted flag is true; a proposal with
accepted = false is rejected. -/
theorem proposed_talk_event_requires_accepted :
    ∀ p : TalkProposal,
      (validProposedTalkEventProposal p = true ↔ p.accepted = true) ∧
      (p.accepted = false → validProposedTalkEventProposal p = false) := by
  intro p
  constructor
  · simp [validProposedTalkEventProposal, proposalChoiceLimit]
  · intro h
    simp [validProposedTalkEventProposal, proposalChoiceLimit, h]

theorem proposed_talk_event_requires_accepted_witness :
    validProposedTalkEventProposal ⟨1, "t", false⟩ = false :=
  (proposed_talk_event_requires_accepted ⟨1, "t", false⟩).2 rfl

/-- C6: `get_absolute_url` on a keynote event is the keynotes static-page
URL with the fragment keynote-speaker-slug appended; with slug liang2 the
URL ends in that fragment. -/
theorem keynote_absolute_url :
    ∀ e : KeynoteEvent,
      e.get_absolute_url =
        reversePage "events/keynotes" ++ "#keynote-speaker-" ++ e.slug ∧
      (e.slug = "liang2" →
        strEndsWith e.get_absolute_url "#keynote-speaker-liang2" = true) := by
  intro e
  have hne : ¬("keynote-speaker-" ++ e.slug = "") := by
    intro h
    have hlen := congrArg String.length h
    simp [String.length_append] at hlen
    exact absurd hlen.1 (by decide)
  constructor
  · simp only [KeynoteEvent.get_absolute_url, withFragment, if_neg hne]
    rw [← String.append_assoc,
      String.append_assoc (reversePage "events/keynotes") "#" "keynote-speaker-"]
    rfl
  · intro h
    simp only [KeynoteEvent.get_absolute_url, withFragment, h]
    decide

theorem keynote_absolute_url_witness :
    (KeynoteEvent.mk "Amber Brown" "liang2").get_absolute_url =
      reversePage "events/keynotes" ++ "#keynote-speaker-" ++ "liang2" ∧
    strEndsWith (KeynoteEvent.mk "Amber Brown" "liang2").get_absolute_url
      "#keynote-speaker-liang2" = true :=
  ⟨(keynote_absolute_url ⟨"Amber Brown", "liang2"⟩).1,
   (keynote_absolute_url ⟨"Amber Brown", "liang2"⟩).2 rfl⟩

/-- C9: through the default `ProposedTalkEvent` manager, whose queryset
always applies `select_related` on the proposal relation, fetching n rows
and reading each row's proposal issues exactly the one base query and no
per-row query; without the eager join it would issue one extra query per
row. -/
theorem proposed_talk_event_no_per_row_queries :
    ∀ n : Nat,
      queriesToReadRelation proposedTalkEventGetQueryset "proposal" n = 1 ∧
      queriesToReadRelation baseGetQueryset "proposal" n = 1 + n := by
  intro n
  constructor
  · simp [queriesToReadRelation, relationAccessQueries,
      proposedTalkEventGetQueryset, baseGetQueryset]
  · simp [queriesToReadRelation, relationAccessQueries, baseGetQueryset]

lemma insertDesc_perm (s : Schedule) (l : List Schedule) :
    List.Perm (insertDesc s l) (s :: l) := by
  induction l with
  | nil => simp [insertDesc]
  | cons t ts ih =>
    simp only [insertDesc]
    by_cases hc : s.created_at ≥ t.created_at
    · rw [if_pos hc]
    · rw [if_neg hc]
      exact (ih.cons t).trans (List.Perm.swap s t ts)

lemma insertDesc_sorted (s : Schedule) (l : List Schedule)
    (h : l.Sorted scheduleBefore) :
    (insertDesc s l).Sorted scheduleBefore := by
  induction l with
  | nil => simp [insertDesc]
  | cons t ts ih =>
    rw [List.sorted_cons] at h
    simp only [insertDesc]
    by_cases hc : s.created_at ≥ t.created_at
    · rw [if_pos hc, List.sorted_cons]
      refine ⟨?_, List.sorted_cons.mpr h⟩
      intro b hb
      rcases List.mem_cons.mp hb with rfl | hb
      · exact hc
      · exact le_trans (h.1 b hb) hc
    · rw [if_neg hc, List.sorted_cons]
      refine ⟨?_, ih h.2⟩
      intro b hb
      have hb2 := (insertDesc_perm s ts).mem_iff.mp hb
      rcases List.mem_cons.mp hb2 with rfl | hb2
      · exact le_of_not_le hc
      · exact h.1 b hb2

lemma scheduleDefaultOrder_sorted_perm (rows : List Schedule) :
    (scheduleDefaultOrder rows).Sorted scheduleBefore ∧
      List.Perm (scheduleDefaultOrder rows) rows := by
  induction rows with
  | nil => exact ⟨List.sorted_nil, List.Perm.refl []⟩
  | cons s ts ih =>
    refine ⟨insertDesc_sorted s _ ih.1, ?_⟩
    exact (insertDesc_perm s _).trans (ih.2.cons s)

lemma scheduleLatest_ne_none (s : Schedule) (ts : List Schedule) :
    scheduleLatest (s :: ts) ≠ none := by
  simp only [scheduleLatest]
  cases h : scheduleLatest ts with
  | none => simp
  | some t => by_cases hc : s.created_at < t.created_at <;> simp [hc]

lemma scheduleLatest_spec (rows : List Schedule) (m : Schedule)
    (hm : scheduleLatest rows = some m) :
    m ∈ rows ∧ ∀ r ∈ rows, r.created_at ≤ m.created_at := by
  induction rows generalizing m with
  | nil => simp [scheduleLatest] at hm
  | cons s ts ih =>
    cases hlt : scheduleLatest ts with
    | none =>
      cases ts with
      | nil =>
        simp only [scheduleLatest] at hm
        cases hm
        exact ⟨List.mem_cons_self _ _, by simp⟩
      | cons u us => exact absurd hlt (scheduleLatest_ne_none u us)
    | some t =>
      simp only [scheduleLatest, hlt] at hm
      obtain ⟨ht, hbound⟩ := ih t hlt
      by_cases hc : s.created_at < t.created_at
      · rw [if_pos hc] at hm
        cases hm
        refine ⟨List.mem_cons_of_mem s ht, ?_⟩
        intro r hr
        rcases List.mem_cons.mp hr with rfl | hr
        · exact le_of_lt hc
        · exact hbound r hr
      · rw [if_neg hc] at hm
        cases hm
        refine ⟨List.mem_cons_self _ _, ?_⟩
        intro r hr
        rcases List.mem_cons.mp hr with rfl | hr
        · exact le_refl _
        · exact le_trans (hbound r hr) (le_of_not_lt hc)

/-- C5: the default retrieval order of `Schedule` rows is a permutation of
the table sorted by `created_at` descending, and `latest()` returns a row
of the table whose `created_at` is maximal. -/
theorem schedule_order_and_latest :
    ∀ rows : List Schedule,
      (scheduleDefaultOrder rows).Sorted scheduleBefore ∧
      List.Perm (scheduleDefaultOrder rows) rows ∧
      (∀ m, scheduleLatest rows = some m →
        m ∈ rows ∧ ∀ r ∈ rows, r.created_at ≤ m.created_at) := by
  intro rows
  obtain ⟨hs, hp⟩ := scheduleDefaultOrder_sorted_perm rows
  exact ⟨hs, hp, fun m hm => scheduleLatest_spec rows m hm⟩

theorem schedule_order_and_latest_witness :
    (⟨"b", (2:Int)⟩ : Schedule) ∈
        [(⟨"a", 1⟩ : Schedule), ⟨"b", 2⟩] ∧
      ∀ r ∈ [(⟨"a", 1⟩ : Schedule), ⟨"b", 2⟩],
        r.created_at ≤ (Schedule.mk "b" 2).created_at :=
  (schedule_order_and_latest [⟨"a", 1⟩, ⟨"b", 2⟩]).2.2 ⟨"b", 2⟩ rfl

end Events
